import Mathlib

/-!
Verification of the virtual-filesystem routing and materialization layer
of the windows9x repository (class FsManager in
src/lib/filesystem/FsManager.ts): path-to-drive resolution, synthetic
mount injection into the root listing, bootstrap of the well-known
directories, and the live-view snapshot cache.  The code is shallowly
embedded: every definition follows the TypeScript source line by line;
the Drive class and the jotai mount contract, which are external to the
analysed sources, are modelled where noted.
-/

namespace Windows9x

/-- JavaScript property lookup over an entry list standing for a plain
object: first binding with an exactly (case-sensitively) equal key. -/
def getKey {α : Type} (l : List (String × α)) (k : String) : Option α :=
  match l with
  | [] => none
  | e :: es => if e.1 = k then some e.2 else getKey es k

/-- JavaScript property assignment obj[k] = v on an entry list: replaces
the value at an existing key in place, otherwise appends the binding. -/
def setKey {α : Type} (l : List (String × α)) (k : String) (v : α) :
    List (String × α) :=
  if (getKey l k).isSome then
    l.map fun e => if e.1 = k then (k, v) else e
  else l ++ [(k, v)]

/-- Number of bindings of a key in an entry list. -/
def countKey {α : Type} (l : List (String × α)) (k : String) : Nat :=
  match l with
  | [] => 0
  | e :: es => (if e.1 = k then 1 else 0) + countKey es k

/-- Splitting a character list on a separator character, by structural
recursion; returns the list of (possibly empty) segments, at least one. -/
def splitSeg (sep : Char) : List Char → List String
  | [] => [""]
  | c :: cs =>
      match splitSeg sep cs with
      | [] => [""]
      | s :: rest =>
          if c = sep then "" :: s :: rest
          else String.mk (c :: s.data) :: rest

/-- JavaScript path.split on the separator slash: the list of segments
between slashes, so an absolute path yields a leading empty segment. -/
def splitPath (path : String) : List String := splitSeg '/' path.data

/-- FsManager.getMountedDriveForPath: split the path, and when
parts[1] === "mnt" and parts[2] is truthy (present and non-empty), look
parts[2] up in the mount table, returning null on a miss; otherwise
null. -/
def getMountedDriveForPath {α : Type} (mounts : List (String × α))
    (path : String) : Option α :=
  let parts := splitPath path
  match parts.get? 1, parts.get? 2 with
  | some s1, some s2 =>
      if s1 = "mnt" ∧ s2 ≠ "" then getKey mounts s2 else none
  | _, _ => none

/-- FsManager.getRelativePath: slash followed by the join of the path
segments from index 3 on. -/
def getRelativePath (path : String) : String :=
  "/" ++ String.intercalate "/" ((splitPath path).drop 3)

/-- Where a single-path FsManager operation is delegated: the root drive
with an unchanged path, or a mounted drive with the rewritten path. -/
inductive Routed (α : Type) where
  | root (path : String) : Routed α
  | mounted (drive : α) (relPath : String) : Routed α
deriving DecidableEq, Repr

/-- The routing prelude shared by every single-path FsManager operation:
consult getMountedDriveForPath, delegate to the mounted drive with
getRelativePath on a hit, else to the root drive with the original
path. -/
def resolve {α : Type} (mounts : List (String × α)) (path : String) :
    Routed α :=
  match getMountedDriveForPath mounts path with
  | some d => .mounted d (getRelativePath path)
  | none => .root path

/-- Where FsManager.move is delegated, with both rewritten paths. -/
inductive MoveRouted (α : Type) where
  | root (oldPath newPath : String) : MoveRouted α
  | mounted (drive : α) (relOldPath relNewPath : String) : MoveRouted α
deriving DecidableEq, Repr

/-- FsManager.move: resolve the drive from oldPath alone; on a mounted
hit rewrite both paths with getRelativePath, else pass both to the root
drive unchanged. -/
def moveRoute {α : Type} (mounts : List (String × α))
    (oldPath newPath : String) : MoveRouted α :=
  match getMountedDriveForPath mounts oldPath with
  | some d => .mounted d (getRelativePath oldPath) (getRelativePath newPath)
  | none => .root oldPath newPath

/-- The drive component of a move delegation (none means root drive). -/
def MoveRouted.driveOf {α : Type} : MoveRouted α → Option α
  | .root _ _ => none
  | .mounted d _ _ => some d

/-- The requested read depth. -/
inductive Depth where
  | shallow : Depth
  | deep : Depth
deriving DecidableEq, Repr

/-- A child in a shallow listing: a stub file, a name-only folder
placeholder, or — as built for the injected mount entry — a folder
carrying its own one-level listing. -/
inductive ShallowItem where
  | stubFile (name : String) : ShallowItem
  | stubFolder (name : String) : ShallowItem
  | subFolder (name : String) (items : List (String × ShallowItem)) : ShallowItem

/-- A shallow folder: its name and one level of children. -/
structure ShallowFolder where
  name : String
  items : List (String × ShallowItem)

/-- A run-time value stored in a deep listing.  nullItem is the
JavaScript null that the non-null assertion in FsManager.getFolder can
store for a mounted drive whose deep root read resolves to null. -/
inductive DeepItem where
  | file (name : String) (content : String) : DeepItem
  | folder (name : String) (items : List (String × DeepItem)) : DeepItem
  | nullItem : DeepItem

/-- A deep folder: its name and its recursively materialized children. -/
structure DeepFolder where
  name : String
  items : List (String × DeepItem)

/-- A Drive (the Drive class is a collaborator FsManager delegates to),
abstracted as the response functions of its read operations. -/
structure DriveFns where
  shallowFolderAt : String → Option ShallowFolder
  deepFolderAt : String → Option DeepFolder
  fileAt : Depth → String → Option DeepItem
  itemAt : Depth → String → Option DeepItem

/-- The deep item stored through the non-null assertion on line 145 of
FsManager.ts: the folder itself when the read resolved, the JavaScript
null value otherwise. -/
def bangItem : Option DeepFolder → DeepItem
  | some f => .folder f.name f.items
  | none => .nullItem

/-- The synthetic shallow mount folder: one name-only folder placeholder
per mounted drive. -/
def mntShallow (mounts : List (String × DriveFns)) : ShallowItem :=
  .subFolder "mnt" (mounts.map fun m => (m.1, .stubFolder m.1))

/-- The synthetic deep mount folder: for every mounted drive, the result
of the deep root read of that same drive, stored through a non-null
assertion. -/
def mntDeep (mounts : List (String × DriveFns)) : DeepItem :=
  .folder "mnt" (mounts.map fun m => (m.1, bangItem (m.2.deepFolderAt "/")))

/-- FsManager.getFolder at shallow depth: the literal root path gets the
root drive listing with the synthetic mount folder injected when the
listing resolved and at least one drive is mounted; every other path is
routed and delegated unmodified. -/
def fsGetFolderShallow (root : DriveFns) (mounts : List (String × DriveFns))
    (path : String) : Option ShallowFolder :=
  if path = "/" then
    match root.shallowFolderAt "/" with
    | none => none
    | some rf =>
        if mounts.length > 0 then
          some ⟨rf.name, setKey rf.items "mnt" (mntShallow mounts)⟩
        else some rf
  else
    match getMountedDriveForPath mounts path with
    | some d => d.shallowFolderAt (getRelativePath path)
    | none => root.shallowFolderAt path

/-- FsManager.getFolder at deep depth; same structure as the shallow
variant, with the injected children read deeply from each drive. -/
def fsGetFolderDeep (root : DriveFns) (mounts : List (String × DriveFns))
    (path : String) : Option DeepFolder :=
  if path = "/" then
    match root.deepFolderAt "/" with
    | none => none
    | some rf =>
        if mounts.length > 0 then
          some ⟨rf.name, setKey rf.items "mnt" (mntDeep mounts)⟩
        else some rf
  else
    match getMountedDriveForPath mounts path with
    | some d => d.deepFolderAt (getRelativePath path)
    | none => root.deepFolderAt path

/-- FsManager.getFile: route and delegate, no special cases. -/
def fsGetFile (root : DriveFns) (mounts : List (String × DriveFns))
    (depth : Depth) (path : String) : Option DeepItem :=
  match getMountedDriveForPath mounts path with
  | some d => d.fileAt depth (getRelativePath path)
  | none => root.fileAt depth path

/-- FsManager.getItem: route and delegate, no special cases. -/
def fsGetItem (root : DriveFns) (mounts : List (String × DriveFns))
    (depth : Depth) (path : String) : Option DeepItem :=
  match getMountedDriveForPath mounts path with
  | some d => d.itemAt depth (getRelativePath path)
  | none => root.itemAt depth path

/-- The delegation a read is specified to perform: the answer of the
resolved drive at the resolved path, with no post-processing. -/
def routedShallowFolder (root : DriveFns) (mounts : List (String × DriveFns))
    (path : String) : Option ShallowFolder :=
  match resolve mounts path with
  | .mounted d rel => d.shallowFolderAt rel
  | .root p => root.shallowFolderAt p

/-- Deep-depth variant of the specified delegation. -/
def routedDeepFolder (root : DriveFns) (mounts : List (String × DriveFns))
    (path : String) : Option DeepFolder :=
  match resolve mounts path with
  | .mounted d rel => d.deepFolderAt rel
  | .root p => root.deepFolderAt p

/-- File variant of the specified delegation. -/
def routedFile (root : DriveFns) (mounts : List (String × DriveFns))
    (depth : Depth) (path : String) : Option DeepItem :=
  match resolve mounts path with
  | .mounted d rel => d.fileAt depth rel
  | .root p => root.fileAt depth p

/-- Item variant of the specified delegation. -/
def routedItem (root : DriveFns) (mounts : List (String × DriveFns))
    (depth : Depth) (path : String) : Option DeepItem :=
  match resolve mounts path with
  | .mounted d rel => d.itemAt depth rel
  | .root p => root.itemAt depth p

/-- A root drive whose own listing at the namespace root contains a real
child named with the mount keyword. -/
def mntCollidingRoot : DriveFns :=
  { shallowFolderAt := fun p =>
      if p = "/" then some ⟨"", [("mnt", .stubFolder "mnt")]⟩ else none
  , deepFolderAt := fun p =>
      if p = "/" then some ⟨"", [("mnt", .folder "mnt" [])]⟩ else none
  , fileAt := fun _ _ => none
  , itemAt := fun _ _ => none }

/-- A small concrete root drive used by witnesses. -/
def sampleRoot : DriveFns :=
  { shallowFolderAt := fun p => if p = "/a" then some ⟨"a", []⟩ else none
  , deepFolderAt := fun _ => none
  , fileAt := fun _ p =>
      if p = "/f.txt" then some (.file "f.txt" "hi") else none
  , itemAt := fun _ _ => none }

/-- A small concrete mounted drive whose deep root read resolves. -/
def sampleDrive : DriveFns :=
  { shallowFolderAt := fun _ => some ⟨"", []⟩
  , deepFolderAt := fun p =>
      if p = "/" then some ⟨"", [("d.txt", .file "d.txt" "x")]⟩ else none
  , fileAt := fun _ _ => none
  , itemAt := fun _ _ => none }

/-- A mounted drive whose every read resolves to null. -/
def nullDeepDrive : DriveFns :=
  { shallowFolderAt := fun _ => none
  , deepFolderAt := fun _ => none
  , fileAt := fun _ _ => none
  , itemAt := fun _ _ => none }

/-- Extracts, from an optional deep folder, the child of the injected
mount entry for a given drive name (used by closed witnesses). -/
def injectedMntChild (o : Option DeepFolder) (n : String) : Option DeepItem :=
  (o.bind fun out => getKey out.items "mnt").bind fun it =>
    match it with
    | .folder _ es => getKey es n
    | _ => none

/-- Modelled from the spec: the state of one Drive BackingStore as seen
by the bootstrap operations — the existing folder paths and the existing
files with their content.  The Drive class itself is not among the
analysed sources; section 4.2 of the spec defines createFolder as
idempotent creation, writeFile as create-or-overwrite, and reads as
resolving to null exactly when nothing exists at the path. -/
structure DriveSt where
  folders : List String
  files : List (String × String)

/-- Modelled from the spec: a shallow getFolder on a Drive resolves to a
non-null value exactly when the folder exists. -/
def DriveSt.hasFolder (s : DriveSt) (p : String) : Bool :=
  decide (p ∈ s.folders)

/-- Modelled from the spec: Drive.createFolder creates an empty folder,
idempotent when it already exists. -/
def DriveSt.createFolder (s : DriveSt) (p : String) : DriveSt :=
  if p ∈ s.folders then s else { s with folders := p :: s.folders }

/-- Modelled from the spec: Drive.getFile resolves to the stored content
and to null when nothing exists at the path. -/
def DriveSt.getFileSt (s : DriveSt) (p : String) : Option String :=
  getKey s.files p

/-- Modelled from the spec: Drive.writeFile creates or overwrites. -/
def DriveSt.writeFileSt (s : DriveSt) (p c : String) : DriveSt :=
  { s with files := setKey s.files p c }

/-- The state FsManager routes over: the root drive store and the mount
table of drive stores. -/
structure FsSt where
  rootDrive : DriveSt
  mountedDrives : List (String × DriveSt)

/-- The mount-table key an absolute path addresses when that drive
exists: the name whose drive getMountedDriveForPath returns. -/
def mountNameForPath (mounts : List (String × DriveSt)) (path : String) :
    Option String :=
  let parts := splitPath path
  match parts.get? 1, parts.get? 2 with
  | some s1, some s2 =>
      if s1 = "mnt" ∧ s2 ≠ "" then
        if (getKey mounts s2).isSome then some s2 else none
      else none
  | _, _ => none

/-- JavaScript mutation of the drive object found in the mount table:
every binding of the name receives the updated drive. -/
def updateMounted (mounts : List (String × DriveSt)) (n : String)
    (f : DriveSt → DriveSt) : List (String × DriveSt) :=
  mounts.map fun m => if m.1 = n then (m.1, f m.2) else m

/-- FsManager.getFolder tested against null (the bootstrap only checks
existence), over the stateful model: route, then ask the drive. -/
def fsFolderExists (st : FsSt) (path : String) : Bool :=
  match mountNameForPath st.mountedDrives path with
  | some n =>
      ((getKey st.mountedDrives n).map fun d =>
        d.hasFolder (getRelativePath path)).getD false
  | none => st.rootDrive.hasFolder path

/-- FsManager.createFolder over the stateful model. -/
def fsCreateFolder (st : FsSt) (path : String) : FsSt :=
  match mountNameForPath st.mountedDrives path with
  | some n =>
      let f := fun d => DriveSt.createFolder d (getRelativePath path)
      { st with mountedDrives := updateMounted st.mountedDrives n f }
  | none => { st with rootDrive := st.rootDrive.createFolder path }

/-- FsManager.getFile over the stateful model. -/
def fsGetFileSt (st : FsSt) (path : String) : Option String :=
  match mountNameForPath st.mountedDrives path with
  | some n =>
      (getKey st.mountedDrives n).bind fun d =>
        d.getFileSt (getRelativePath path)
  | none => st.rootDrive.getFileSt path

/-- FsManager.writeFile over the stateful model. -/
def fsWriteFile (st : FsSt) (path content : String) : FsSt :=
  match mountNameForPath st.mountedDrives path with
  | some n =>
      let f := fun d => DriveSt.writeFileSt d (getRelativePath path) content
      { st with mountedDrives := updateMounted st.mountedDrives n f }
  | none => { st with rootDrive := st.rootDrive.writeFileSt path content }

/-- Modelled from the spec: the well-known top-level folder paths and
the registry file path (their defining module is not among the analysed
sources; the spec fixes a system folder, a programs folder and a user
folder, all top-level, plus one registry file at a fixed path). -/
def SYSTEM_PATH : String := "/system"

/-- Modelled from the spec: the well-known programs folder path. -/
def PROGRAMS_PATH : String := "/programs"

/-- Modelled from the spec: the well-known user folder path. -/
def USER_PATH : String := "/user"

/-- Modelled from the spec: the well-known registry file path. -/
def REGISTRY_PATH : String := "/system/registry.json"

/-- One bootstrap action performed by setupDefaultDirectories. -/
inductive SetupAction where
  | createdFolder (path : String) : SetupAction
  | wroteFile (path : String) (content : String) : SetupAction
deriving DecidableEq, Repr

/-- One loop iteration of FsManager.setupDefaultDirectories: check
shallow existence, create only when absent, recording the create. -/
def setupDirStep (acc : FsSt × List SetupAction) (dir : String) :
    FsSt × List SetupAction :=
  if fsFolderExists acc.1 dir then acc
  else (fsCreateFolder acc.1 dir, acc.2 ++ [.createdFolder dir])

/-- FsManager.setupDefaultDirectories: ensure the three well-known
folders in order, then the registry file with its fixed initial content,
recording every create and write performed. -/
def setupDefaultDirectories (st : FsSt) : FsSt × List SetupAction :=
  let acc := [SYSTEM_PATH, PROGRAMS_PATH, USER_PATH].foldl setupDirStep (st, [])
  if (fsGetFileSt acc.1 REGISTRY_PATH).isSome then acc
  else (fsWriteFile acc.1 REGISTRY_PATH "\x7b\x7d",
        acc.2 ++ [.wroteFile REGISTRY_PATH "\x7b\x7d"])

/-- FsManager.hasSystemData: the shallow system-folder read tested
against null. -/
def hasSystemData (st : FsSt) : Bool := fsFolderExists st SYSTEM_PATH

/-- The empty filesystem state: no folders, no files, no mounts. -/
def emptyFs : FsSt := ⟨⟨[], []⟩, []⟩

/-- One cached live-view atom of FsManager: its identity (distinguishing
the object handed to callers), the current subscriber count maintained
by the jotai runtime, and the id of its running refresh interval while
mounted. -/
structure CacheEntry where
  eid : Nat
  subs : Nat
  timerId : Option Nat
deriving DecidableEq, Repr

/-- Which of the three per-path atom maps of FsManager an atom lives in:
shallowAtoms, deepAtoms (the two depths of getFolderAtom) or
fileAtoms. -/
inductive AtomMapKind where
  | shallowFolders : AtomMapKind
  | deepFolders : AtomMapKind
  | files : AtomMapKind
deriving DecidableEq, Repr

/-- The live-view cache state: a fresh-id counter, the three atom maps,
and the running intervals as pairs of timer id and period in
milliseconds. -/
structure CacheSt where
  nextId : Nat
  shallowAtoms : List (String × CacheEntry)
  deepAtoms : List (String × CacheEntry)
  fileAtoms : List (String × CacheEntry)
  timers : List (Nat × Nat)
deriving DecidableEq, Repr

/-- The atom map a kind selects. -/
def CacheSt.atomsMap (st : CacheSt) : AtomMapKind → List (String × CacheEntry)
  | .shallowFolders => st.shallowAtoms
  | .deepFolders => st.deepAtoms
  | .files => st.fileAtoms

/-- The state with the atom map of one kind, the fresh counter and the
timers replaced, every other atom map kept. -/
def CacheSt.updMap (st : CacheSt) (k : AtomMapKind)
    (m : List (String × CacheEntry)) (n : Nat) (ts : List (Nat × Nat)) :
    CacheSt :=
  match k with
  | .shallowFolders => ⟨n, m, st.deepAtoms, st.fileAtoms, ts⟩
  | .deepFolders => ⟨n, st.shallowAtoms, m, st.fileAtoms, ts⟩
  | .files => ⟨n, st.shallowAtoms, st.deepAtoms, m, ts⟩

/-- FsManager.getFolderAtom and getFileAtom: return the cached atom for
the key, creating it — not yet mounted, no timer — when absent.  The
returned number is the identity of the atom handed to the caller. -/
def getAtom (st : CacheSt) (k : AtomMapKind) (path : String) :
    CacheSt × Nat :=
  match getKey (st.atomsMap k) path with
  | some e => (st, e.eid)
  | none =>
      (st.updMap k ((st.atomsMap k) ++ [(path, CacheEntry.mk st.nextId 0 none)])
        (st.nextId + 1) st.timers, st.nextId)

/-- Modelled from the spec (section 4.4) and the mount contract of the
jotai runtime FsManager relies on: a subscription goes through
getFolderAtom or getFileAtom, increments the subscriber count of the
entry, and on the zero-to-one transition runs onMount, which per lines
225-233 and 246-254 of the source starts a setInterval with period
500. -/
def subscribe (st : CacheSt) (k : AtomMapKind) (path : String) : CacheSt :=
  let st1 := (getAtom st k path).1
  match getKey (st1.atomsMap k) path with
  | none => st1
  | some e =>
      if e.subs = 0 then
        st1.updMap k (setKey (st1.atomsMap k) path
            { e with subs := 1, timerId := some st1.nextId })
          (st1.nextId + 1) (st1.timers ++ [(st1.nextId, 500)])
      else
        st1.updMap k (setKey (st1.atomsMap k) path
            { e with subs := e.subs + 1 })
          st1.nextId st1.timers

/-- JavaScript delete obj[k] on an entry list: every binding of the key
goes away. -/
def delKey {α : Type} : List (String × α) → String → List (String × α)
  | [], _ => []
  | e :: es, k => if e.1 = k then delKey es k else e :: delKey es k

/-- Removal of a timer id from the running-interval list. -/
def eraseTimer : List (Nat × Nat) → Nat → List (Nat × Nat)
  | [], _ => []
  | t :: ts, tid => if t.1 = tid then eraseTimer ts tid else t :: eraseTimer ts tid

/-- clearInterval: the timer with the given id, if any, stops running. -/
def clearTimer (timers : List (Nat × Nat)) : Option Nat → List (Nat × Nat)
  | some tid => eraseTimer timers tid
  | none => timers

/-- Modelled from the spec (section 4.4) and the jotai mount contract:
unsubscribing decrements the subscriber count; the one-to-zero
transition runs the cleanup returned by onMount, which per the source
clears the interval and deletes the map entry for the path. -/
def unsubscribe (st : CacheSt) (k : AtomMapKind) (path : String) : CacheSt :=
  match getKey (st.atomsMap k) path with
  | none => st
  | some e =>
      if e.subs = 1 then
        st.updMap k (delKey (st.atomsMap k) path)
          st.nextId (clearTimer st.timers e.timerId)
      else if e.subs = 0 then st
      else
        st.updMap k (setKey (st.atomsMap k) path
            { e with subs := e.subs - 1 })
          st.nextId st.timers

/-- The cache state at startup: no atoms, no timers. -/
def CacheSt.origin : CacheSt := ⟨0, [], [], [], []⟩

/-- Cache states reachable from startup through the atom operations. -/
inductive CacheReachable : CacheSt → Prop where
  | origin : CacheReachable CacheSt.origin
  | getAtomStep (st : CacheSt) (k : AtomMapKind) (p : String) :
      CacheReachable st → CacheReachable (getAtom st k p).1
  | subscribeStep (st : CacheSt) (k : AtomMapKind) (p : String) :
      CacheReachable st → CacheReachable (subscribe st k p)
  | unsubscribeStep (st : CacheSt) (k : AtomMapKind) (p : String) :
      CacheReachable st → CacheReachable (unsubscribe st k p)

/-- The invariant the cache operations maintain: every running interval
has period 500, every entry identity is below the fresh counter, and an
entry without subscribers has no timer. -/
def CacheInv (st : CacheSt) : Prop :=
  (∀ t ∈ st.timers, t.2 = 500)
  ∧ (∀ k p e, getKey (st.atomsMap k) p = some e → e.eid < st.nextId)
  ∧ (∀ k p e, getKey (st.atomsMap k) p = some e → e.subs = 0 →
      e.timerId = none)

/-- Claim C1: resolution splits the path on the separator; when
segment 1 is the mount keyword and segment 2 names a drive present in
the table (exact, case-sensitive string match), the operation goes to
that drive with the path rebuilt from segments 3 onward (exactly the
root path when none remain); in every other case, including a mount
segment naming an absent drive, it goes to the root drive with the
original path unchanged. -/
theorem resolve_spec {α : Type} (mounts : List (String × α)) (path : String) :
    (∀ name d, (splitPath path).get? 1 = some "mnt" →
        (splitPath path).get? 2 = some name → name ≠ "" →
        getKey mounts name = some d →
        resolve mounts path =
          .mounted d ("/" ++ String.intercalate "/" ((splitPath path).drop 3)))
    ∧ ((splitPath path).drop 3 = [] → getRelativePath path = "/")
    ∧ (getMountedDriveForPath mounts path = none →
        resolve mounts path = .root path)
    ∧ (∀ name, (splitPath path).get? 2 = some name →
        getKey mounts name = none →
        getMountedDriveForPath mounts path = none)
    ∧ ((splitPath path).get? 1 ≠ some "mnt" →
        getMountedDriveForPath mounts path = none) := by
  refine ⟨?_, ?_, ?_, ?_, ?_⟩
  · intro name d h1 h2 h3 h4
    simp only [resolve, getMountedDriveForPath, getRelativePath, h1, h2, h3,
      ne_eq, not_false_iff, and_true, if_true, h4]
  · intro h
    simp only [getRelativePath, h]
    decide
  · intro h
    simp only [resolve, h]
  · intro name h2 h4
    simp only [getMountedDriveForPath, h2]
    cases h1 : (splitPath path).get? 1 with
    | none => rfl
    | some s1 =>
        by_cases hc : s1 = "mnt" ∧ name ≠ ""
        · simp [hc, h4]
        · simp [hc]
  · intro h1
    simp only [getMountedDriveForPath]
    cases hg1 : (splitPath path).get? 1 with
    | none => rfl
    | some s1 =>
        cases hg2 : (splitPath path).get? 2 with
        | none => rfl
        | some s2 =>
            have hs1 : ¬ s1 = "mnt" := by
              intro hs
              exact h1 (by rw [hg1, hs])
            simp [hs1]

/-- Witness for claim C1 at concrete inputs: a matched mount routes to
that drive with the rewritten path, and an unmatched mount name falls
back to the root drive with the path unchanged. -/
theorem resolve_spec_witness :
    resolve [("X", 7)] "/mnt/X/a.txt" = Routed.mounted 7 "/a.txt"
    ∧ resolve [("X", 7)] "/mnt/doesnotexist/a.txt" =
        Routed.root "/mnt/doesnotexist/a.txt"
    ∧ resolve [("X", 7)] "/mnt/X" = Routed.mounted 7 "/" := by
  refine ⟨?_, ?_, ?_⟩
  · have h := (resolve_spec [("X", 7)] "/mnt/X/a.txt").1 "X" 7
      (by decide) (by decide) (by decide) (by decide)
    exact h.trans (by decide)
  · exact (resolve_spec [("X", 7)] "/mnt/doesnotexist/a.txt").2.2.1
      ((resolve_spec [("X", 7)] "/mnt/doesnotexist/a.txt").2.2.2.1
        "doesnotexist" (by decide) (by decide))
  · have h := (resolve_spec [("X", 7)] "/mnt/X").1 "X" 7
      (by decide) (by decide) (by decide) (by decide)
    exact h.trans (by decide)

/-- Claim C9: move resolves its drive solely from oldPath; when oldPath
hits a mounted drive, newPath is rewritten unconditionally by dropping
everything up to segment 2 (regardless of which drive, if any, newPath
addresses) and the move stays on the source drive; when oldPath resolves
to the root drive both paths pass through unchanged; the chosen drive
never depends on newPath, so no cross-drive move occurs. -/
theorem move_spec {α : Type} (mounts : List (String × α))
    (oldPath newPath : String) :
    (∀ d, getMountedDriveForPath mounts oldPath = some d →
        moveRoute mounts oldPath newPath =
          .mounted d (getRelativePath oldPath)
            ("/" ++ String.intercalate "/"
              (((splitPath newPath).drop 1).drop 2)))
    ∧ (getMountedDriveForPath mounts oldPath = none →
        moveRoute mounts oldPath newPath = .root oldPath newPath)
    ∧ (∀ newPath2,
        (moveRoute mounts oldPath newPath).driveOf =
          (moveRoute mounts oldPath newPath2).driveOf) := by
  refine ⟨?_, ?_, ?_⟩
  · intro d h
    simp only [moveRoute, h, getRelativePath, List.drop_drop]
  · intro h
    simp only [moveRoute, h]
  · intro newPath2
    cases h : getMountedDriveForPath mounts oldPath with
    | none => simp [moveRoute, h, MoveRouted.driveOf]
    | some d => simp [moveRoute, h, MoveRouted.driveOf]

/-- Witness for claim C9 at concrete inputs: with drives X and Y mounted,
moving from a path on X to a path spelled on Y still runs on X with the
newPath blindly rewritten; a root-resolved oldPath passes both paths
through unchanged. -/
theorem move_spec_witness :
    moveRoute [("X", 7), ("Y", 8)] "/mnt/X/a" "/mnt/Y/b" =
      MoveRouted.mounted 7 "/a" "/b"
    ∧ moveRoute [("X", 7), ("Y", 8)] "/docs/a" "/mnt/Y/b" =
      MoveRouted.root "/docs/a" "/mnt/Y/b" := by
  constructor
  · have h := (move_spec [("X", 7), ("Y", 8)] "/mnt/X/a" "/mnt/Y/b").1 7
      (by decide)
    exact h.trans (by decide)
  · exact (move_spec [("X", 7), ("Y", 8)] "/docs/a" "/mnt/Y/b").2.1 (by decide)

/-- Lookup over a concatenation takes the left answer first. -/
theorem getKey_append {α : Type} (l l2 : List (String × α)) (k : String) :
    getKey (l ++ l2) k =
      match getKey l k with
      | some v => some v
      | none => getKey l2 k := by
  induction l with
  | nil => rfl
  | cons e es ih =>
      by_cases h : e.1 = k
      · simp [getKey, h]
      · simp [getKey, h, ih]

/-- Lookup fails exactly for keys outside the key list. -/
theorem getKey_none_iff {α : Type} (l : List (String × α)) (k : String) :
    getKey l k = none ↔ k ∉ l.map Prod.fst := by
  induction l with
  | nil => simp [getKey]
  | cons e es ih =>
      by_cases h : e.1 = k
      · simp [getKey, h]
      · have h2 : ¬ k = e.1 := fun hk => h hk.symm
        simp [getKey, h, ih, h2]

/-- A key outside the key list occurs zero times. -/
theorem countKey_eq_zero {α : Type} :
    ∀ {l : List (String × α)} {k : String},
      k ∉ l.map Prod.fst → countKey l k = 0 := by
  intro l
  induction l with
  | nil => intro k _; rfl
  | cons e es ih =>
      intro k h
      simp only [List.map_cons, List.mem_cons] at h
      push_neg at h
      have he : ¬ e.1 = k := fun hk => h.1 hk.symm
      simp [countKey, he, ih h.2]

/-- Key counts add over concatenation. -/
theorem countKey_append {α : Type} (l l2 : List (String × α)) (k : String) :
    countKey (l ++ l2) k = countKey l k + countKey l2 k := by
  induction l with
  | nil => simp [countKey]
  | cons e es ih => simp [countKey, ih, Nat.add_assoc]

/-- The in-place update map of setKey keeps the key list unchanged. -/
theorem keys_map_set {α : Type} (l : List (String × α)) (k : String) (v : α) :
    (l.map fun e => if e.1 = k then (k, v) else e).map Prod.fst
      = l.map Prod.fst := by
  induction l with
  | nil => rfl
  | cons e es ih =>
      by_cases h : e.1 = k
      · simp [h, ih]
      · simp [h, ih]

/-- After an in-place update at a present key, lookup finds the new
value. -/
theorem getKey_map_set {α : Type} {k : String} {v : α} :
    ∀ {l : List (String × α)}, (getKey l k).isSome = true →
      getKey (l.map fun e => if e.1 = k then (k, v) else e) k = some v := by
  intro l
  induction l with
  | nil => intro h; simp [getKey] at h
  | cons e es ih =>
      intro h
      by_cases he : e.1 = k
      · simp [getKey, he]
      · have h2 : (getKey es k).isSome = true := by simpa [getKey, he] using h
        simpa [getKey, he] using ih h2

/-- The in-place update at one key leaves every other lookup alone. -/
theorem getKey_map_set_ne {α : Type} {k k2 : String} (v : α) (h : k2 ≠ k) :
    ∀ (l : List (String × α)),
      getKey (l.map fun e => if e.1 = k then (k, v) else e) k2
        = getKey l k2 := by
  intro l
  induction l with
  | nil => rfl
  | cons e es ih =>
      by_cases he : e.1 = k
      · have h2 : ¬ k = k2 := fun hk => h hk.symm
        simp [getKey, he, h2, ih]
      · simp [getKey, he, ih]

/-- JavaScript assignment then lookup at the same key yields the
assigned value. -/
theorem getKey_setKey_self {α : Type} (l : List (String × α)) (k : String)
    (v : α) : getKey (setKey l k v) k = some v := by
  unfold setKey
  by_cases h : (getKey l k).isSome = true
  · rw [if_pos h]
    exact getKey_map_set h
  · rw [if_neg h, getKey_append]
    have hn : getKey l k = none := by
      cases hg : getKey l k with
      | none => rfl
      | some w => rw [hg] at h; simp at h
    rw [hn]
    simp [getKey]

/-- JavaScript assignment leaves every other key unchanged. -/
theorem getKey_setKey_ne {α : Type} (l : List (String × α)) {k k2 : String}
    (v : α) (h : k2 ≠ k) : getKey (setKey l k v) k2 = getKey l k2 := by
  unfold setKey
  by_cases hs : (getKey l k).isSome = true
  · rw [if_pos hs]
    exact getKey_map_set_ne v h l
  · rw [if_neg hs, getKey_append]
    cases hg : getKey l k2 with
    | some w => rfl
    | none =>
        have h2 : ¬ k = k2 := fun hk => h hk.symm
        simp [getKey, h2]

/-- After an in-place update at a present key of a duplicate-free entry
list, the key occurs exactly once. -/
theorem countKey_map_set {α : Type} {k : String} {v : α} :
    ∀ {l : List (String × α)}, (l.map Prod.fst).Nodup →
      (getKey l k).isSome = true →
      countKey (l.map fun e => if e.1 = k then (k, v) else e) k = 1 := by
  intro l
  induction l with
  | nil => intro _ hs; simp [getKey] at hs
  | cons e es ih =>
      intro hnd hs
      simp only [List.map_cons, List.nodup_cons] at hnd
      by_cases he : e.1 = k
      · have hk : k ∉ es.map Prod.fst := he ▸ hnd.1
        have hz : countKey (es.map fun e => if e.1 = k then (k, v) else e) k
            = 0 := countKey_eq_zero (by rwa [keys_map_set])
        simp [countKey, he, hz]
      · have hs2 : (getKey es k).isSome = true := by simpa [getKey, he] using hs
        simp [countKey, he, ih hnd.2 hs2]

/-- JavaScript assignment on a duplicate-free entry list leaves exactly
one binding of the assigned key. -/
theorem countKey_setKey_self {α : Type} {l : List (String × α)} (k : String)
    (v : α) (hnd : (l.map Prod.fst).Nodup) :
    countKey (setKey l k v) k = 1 := by
  unfold setKey
  by_cases hs : (getKey l k).isSome = true
  · rw [if_pos hs]
    exact countKey_map_set hnd hs
  · rw [if_neg hs, countKey_append]
    have hn : getKey l k = none := by
      cases hg : getKey l k with
      | none => rfl
      | some w => rw [hg] at hs; simp at hs
    have hz : countKey l k = 0 :=
      countKey_eq_zero ((getKey_none_iff l k).mp hn)
    simp [hz, countKey]

/-- Lookup of a present key in a keyed map image, for duplicate-free
keys: the image of that binding. -/
theorem getKey_map_pair {α β : Type} (g : String × α → β) :
    ∀ (l : List (String × α)) (n : String) (d : α),
      (l.map Prod.fst).Nodup → (n, d) ∈ l →
      getKey (l.map fun m => (m.1, g m)) n = some (g (n, d)) := by
  intro l
  induction l with
  | nil => intro n d _ hmem; cases hmem
  | cons e es ih =>
      intro n d hnd hmem
      simp only [List.map_cons, List.nodup_cons] at hnd
      by_cases he : e.1 = n
      · have heq : e = (n, d) := by
          rcases List.mem_cons.mp hmem with h | h
          · exact h.symm
          · exact absurd (he ▸ List.mem_map.mpr ⟨(n, d), h, rfl⟩) hnd.1
        subst heq
        simp [getKey]
      · have hmem2 : (n, d) ∈ es := by
          rcases List.mem_cons.mp hmem with h | h
          · exact absurd (congrArg Prod.fst h.symm) he
          · exact h
        simp only [List.map_cons, getKey]
        rw [if_neg he]
        exact ih n d hnd.2 hmem2

/-- Counterexample to claim C2 as stated: with zero mounted drives the
root listing is returned unchanged, so when the root store itself holds
a real child named with the mount keyword, the returned listing does
contain an entry named mnt. -/
theorem zero_mounts_can_list_mnt :
    (fsGetFolderShallow mntCollidingRoot [] "/").bind
        (fun f => getKey f.items "mnt")
      = some (ShallowItem.stubFolder "mnt") := by
  rfl

/-- Claim C2 (amended): getFolder of the root path injects nothing when
no drive is mounted — the root drive listing is returned unchanged at
either depth, so it contains an entry named mnt exactly when the root
store itself does; whenever at least one drive is mounted and the root
listing resolves, the result holds exactly one entry named mnt whose
value is the computed synthetic folder regardless of the root store
data; at shallow depth its children are name-only placeholders, one per
mounted drive name, and the whole shallow answer depends on the mounted
drive names alone, never on the content of the drives. -/
theorem root_mount_injection (root : DriveFns)
    (mounts : List (String × DriveFns)) :
    (mounts = [] →
        fsGetFolderShallow root mounts "/" = root.shallowFolderAt "/"
        ∧ fsGetFolderDeep root mounts "/" = root.deepFolderAt "/")
    ∧ (∀ rf, mounts ≠ [] → root.shallowFolderAt "/" = some rf →
        (rf.items.map Prod.fst).Nodup →
        ∃ out, fsGetFolderShallow root mounts "/" = some out
          ∧ countKey out.items "mnt" = 1
          ∧ getKey out.items "mnt" = some (ShallowItem.subFolder "mnt"
              (mounts.map fun m => (m.1, ShallowItem.stubFolder m.1))))
    ∧ (∀ mounts2 : List (String × DriveFns),
        mounts.map Prod.fst = mounts2.map Prod.fst →
        fsGetFolderShallow root mounts "/"
          = fsGetFolderShallow root mounts2 "/") := by
  refine ⟨?_, ?_, ?_⟩
  · rintro rfl
    constructor
    · cases hr : root.shallowFolderAt "/" <;>
        simp [fsGetFolderShallow, hr]
    · cases hr : root.deepFolderAt "/" <;>
        simp [fsGetFolderDeep, hr]
  · intro rf hm hroot hnd
    refine ⟨⟨rf.name, setKey rf.items "mnt" (mntShallow mounts)⟩, ?_, ?_, ?_⟩
    · simp [fsGetFolderShallow, hroot, List.length_pos.mpr hm]
    · exact countKey_setKey_self "mnt" (mntShallow mounts) hnd
    · rw [getKey_setKey_self]
      rfl
  · intro mounts2 hk
    have hlen : mounts.length = mounts2.length := by
      have h := congrArg List.length hk
      simpa using h
    have hsyn : (mounts.map fun m => (m.1, ShallowItem.stubFolder m.1))
        = mounts2.map fun m => (m.1, ShallowItem.stubFolder m.1) := by
      have h1 : mounts.map (fun m => (m.1, ShallowItem.stubFolder m.1))
          = (mounts.map Prod.fst).map fun n => (n, ShallowItem.stubFolder n) := by
        rw [List.map_map]
        rfl
      have h2 : mounts2.map (fun m => (m.1, ShallowItem.stubFolder m.1))
          = (mounts2.map Prod.fst).map fun n => (n, ShallowItem.stubFolder n) := by
        rw [List.map_map]
        rfl
      rw [h1, h2, hk]
    cases hr : root.shallowFolderAt "/" with
    | none => simp [fsGetFolderShallow, hr]
    | some rf => simp [fsGetFolderShallow, hr, mntShallow, hlen, hsyn]

/-- Witness for claim C2 (amended) at concrete input: one mounted drive
named X and a root store that itself holds a real mnt child; the result
lists mnt exactly once, bound to the synthetic placeholder folder. -/
theorem root_mount_injection_witness :
    (fsGetFolderShallow mntCollidingRoot [("X", sampleDrive)] "/").bind
        (fun f => getKey f.items "mnt")
      = some (ShallowItem.subFolder "mnt" [("X", ShallowItem.stubFolder "X")])
    ∧ (fsGetFolderShallow mntCollidingRoot [("X", sampleDrive)] "/").map
        (fun f => countKey f.items "mnt") = some 1 := by
  obtain ⟨out, h1, hcnt, hget⟩ :=
    (root_mount_injection mntCollidingRoot [("X", sampleDrive)]).2.1
      ⟨"", [("mnt", ShallowItem.stubFolder "mnt")]⟩
      (List.cons_ne_nil _ _) rfl (by decide)
  constructor
  · rw [h1]
    exact hget.trans rfl
  · rw [h1]
    simpa using hcnt

/-- Claim C3: at deep depth with at least one mounted drive, the
injected mnt child maps every mounted drive name to the deep root read
of that same drive — a fully recursive deep folder whenever that read
resolves — and the injected entry overwrites any colliding real child
named mnt of the root store listing while leaving every other child
untouched. -/
theorem root_deep_injection (root : DriveFns)
    (mounts : List (String × DriveFns)) (rf : DeepFolder)
    (hm : mounts ≠ []) (hroot : root.deepFolderAt "/" = some rf) :
    ∃ out, fsGetFolderDeep root mounts "/" = some out
      ∧ getKey out.items "mnt" = some (DeepItem.folder "mnt"
          (mounts.map fun m => (m.1, bangItem (m.2.deepFolderAt "/"))))
      ∧ (∀ n d f, (mounts.map Prod.fst).Nodup → (n, d) ∈ mounts →
          d.deepFolderAt "/" = some f →
          getKey (mounts.map fun m => (m.1, bangItem (m.2.deepFolderAt "/"))) n
            = some (DeepItem.folder f.name f.items))
      ∧ (∀ k2, k2 ≠ "mnt" → getKey out.items k2 = getKey rf.items k2) := by
  refine ⟨⟨rf.name, setKey rf.items "mnt" (mntDeep mounts)⟩, ?_, ?_, ?_, ?_⟩
  · simp [fsGetFolderDeep, hroot, List.length_pos.mpr hm]
  · rw [getKey_setKey_self]
    rfl
  · intro n d f hnd hmem hdeep
    have h := getKey_map_pair (fun m => bangItem (m.2.deepFolderAt "/"))
      mounts n d hnd hmem
    rw [h]
    show some (bangItem (d.deepFolderAt "/")) = _
    simp [hdeep, bangItem]
  · intro k2 hk2
    exact getKey_setKey_ne rf.items (mntDeep mounts) hk2

/-- Witness for claim C3 at concrete input: the root store holds a real
mnt child, drive X resolves deeply; the injected entry overwrites the
collision and carries the deep tree of X. -/
theorem root_deep_injection_witness :
    injectedMntChild
        (fsGetFolderDeep mntCollidingRoot [("X", sampleDrive)] "/") "X"
      = some (DeepItem.folder "" [("d.txt", DeepItem.file "d.txt" "x")]) := by
  obtain ⟨out, h1, h2, _, _⟩ :=
    root_deep_injection mntCollidingRoot [("X", sampleDrive)]
      ⟨"", [("mnt", DeepItem.folder "mnt" [])]⟩ (List.cons_ne_nil _ _) rfl
  unfold injectedMntChild
  rw [h1]
  show (getKey out.items "mnt").bind _ = _
  rw [h2]
  rfl

/-- Claim C10: the deep injection stores each mounted drive read through
a non-null assertion, so when the deep root read of a mounted drive
resolves to null, the injected child for that drive name is the null
value rather than a folder; the all-children-are-folders guarantee needs
every mounted drive deep root read to resolve. -/
theorem root_deep_injection_null (root : DriveFns)
    (mounts : List (String × DriveFns)) (rf : DeepFolder)
    (n : String) (d : DriveFns)
    (hroot : root.deepFolderAt "/" = some rf)
    (hnd : (mounts.map Prod.fst).Nodup)
    (hmem : (n, d) ∈ mounts)
    (hnull : d.deepFolderAt "/" = none) :
    injectedMntChild (fsGetFolderDeep root mounts "/") n
      = some DeepItem.nullItem := by
  have hm : mounts ≠ [] := List.ne_nil_of_mem hmem
  obtain ⟨out, h1, h2, _, _⟩ := root_deep_injection root mounts rf hm hroot
  unfold injectedMntChild
  rw [h1]
  show (getKey out.items "mnt").bind _ = _
  rw [h2]
  show getKey (mounts.map fun m => (m.1, bangItem (m.2.deepFolderAt "/"))) n
    = some DeepItem.nullItem
  have h := getKey_map_pair (fun m => bangItem (m.2.deepFolderAt "/"))
    mounts n d hnd hmem
  rw [h]
  show some (bangItem (d.deepFolderAt "/")) = _
  simp [hnull, bangItem]

/-- Witness for claim C10 at concrete input: drive Y reads null deeply,
so the injected child for Y is the null value. -/
theorem root_deep_injection_null_witness :
    injectedMntChild
        (fsGetFolderDeep mntCollidingRoot
          [("X", sampleDrive), ("Y", nullDeepDrive)] "/") "Y"
      = some DeepItem.nullItem := by
  exact root_deep_injection_null mntCollidingRoot
    [("X", sampleDrive), ("Y", nullDeepDrive)]
    ⟨"", [("mnt", DeepItem.folder "mnt" [])]⟩ "Y" nullDeepDrive
    rfl (by decide) (List.mem_cons_of_mem _ (List.mem_cons_self _ _)) rfl

/-- Claim C4: synthetic mount injection applies only to the literal root
path: for every other path getFolder at either depth returns the answer
of the resolved drive unmodified, and getFile and getItem always do. -/
theorem reads_unmodified_off_root (root : DriveFns)
    (mounts : List (String × DriveFns)) (path : String) (depth : Depth) :
    (path ≠ "/" →
      fsGetFolderShallow root mounts path
        = routedShallowFolder root mounts path)
    ∧ (path ≠ "/" →
      fsGetFolderDeep root mounts path = routedDeepFolder root mounts path)
    ∧ fsGetFile root mounts depth path = routedFile root mounts depth path
    ∧ fsGetItem root mounts depth path = routedItem root mounts depth path := by
  refine ⟨?_, ?_, ?_, ?_⟩
  · intro h
    simp only [fsGetFolderShallow, if_neg h, routedShallowFolder, resolve]
    cases getMountedDriveForPath mounts path <;> rfl
  · intro h
    simp only [fsGetFolderDeep, if_neg h, routedDeepFolder, resolve]
    cases getMountedDriveForPath mounts path <;> rfl
  · simp only [fsGetFile, routedFile, resolve]
    cases getMountedDriveForPath mounts path <;> rfl
  · simp only [fsGetItem, routedItem, resolve]
    cases getMountedDriveForPath mounts path <;> rfl

/-- Witness for claim C4 at concrete input: with a drive mounted, a
non-root path is answered by the root drive directly with no synthetic
node, and a file read passes through routing untouched. -/
theorem reads_unmodified_off_root_witness :
    fsGetFolderShallow sampleRoot [("X", sampleDrive)] "/a"
      = some ⟨"a", []⟩
    ∧ fsGetFile sampleRoot [("X", sampleDrive)] Depth.deep "/f.txt"
      = some (DeepItem.file "f.txt" "hi") := by
  constructor
  · exact ((reads_unmodified_off_root sampleRoot [("X", sampleDrive)]
      "/a" Depth.deep).1 (by decide)).trans rfl
  · exact (reads_unmodified_off_root sampleRoot [("X", sampleDrive)]
      "/f.txt" Depth.deep).2.2.1.trans rfl

/-- Fidelity of the stateful router: getMountedDriveForPath is exactly
mountNameForPath followed by the table lookup. -/
theorem getMounted_eq_mountName_bind (mounts : List (String × DriveSt))
    (path : String) :
    getMountedDriveForPath mounts path
      = (mountNameForPath mounts path).bind fun n => getKey mounts n := by
  simp only [getMountedDriveForPath, mountNameForPath]
  cases h1 : (splitPath path).get? 1 with
  | none => rfl
  | some s1 =>
      cases h2 : (splitPath path).get? 2 with
      | none => rfl
      | some s2 =>
          show (if s1 = "mnt" ∧ s2 ≠ "" then getKey mounts s2 else none)
            = (if s1 = "mnt" ∧ s2 ≠ "" then
                (if (getKey mounts s2).isSome = true then some s2 else none)
              else none).bind fun n => getKey mounts n
          by_cases hc : s1 = "mnt" ∧ s2 ≠ ""
          · rw [if_pos hc, if_pos hc]
            cases hk : getKey mounts s2 with
            | none => simp [hk]
            | some d => simp [hk]
          · rw [if_neg hc, if_neg hc]
            rfl

/-- The well-known system path routes to the root drive whatever the
mount table holds. -/
theorem route_system : ∀ m : List (String × DriveSt),
    mountNameForPath m SYSTEM_PATH = none := fun _ => rfl

/-- The well-known programs path routes to the root drive. -/
theorem route_programs : ∀ m : List (String × DriveSt),
    mountNameForPath m PROGRAMS_PATH = none := fun _ => rfl

/-- The well-known user path routes to the root drive. -/
theorem route_user : ∀ m : List (String × DriveSt),
    mountNameForPath m USER_PATH = none := fun _ => rfl

/-- The well-known registry path routes to the root drive. -/
theorem route_registry : ∀ m : List (String × DriveSt),
    mountNameForPath m REGISTRY_PATH = none := fun _ => rfl

/-- A created folder exists afterwards. -/
theorem DriveSt.hasFolder_create_self (s : DriveSt) (p : String) :
    (s.createFolder p).hasFolder p = true := by
  unfold DriveSt.createFolder DriveSt.hasFolder
  split
  · next h => simpa using h
  · simp

/-- Creating one folder keeps every existing folder. -/
theorem DriveSt.hasFolder_create_mono (s : DriveSt) (p q : String)
    (h : s.hasFolder p = true) : (s.createFolder q).hasFolder p = true := by
  unfold DriveSt.createFolder
  split
  · exact h
  · unfold DriveSt.hasFolder at h ⊢
    simp only [decide_eq_true_eq] at h ⊢
    exact List.mem_cons_of_mem _ h

/-- Creating a different folder does not change an existence test. -/
theorem DriveSt.hasFolder_create_frame (s : DriveSt) (p q : String)
    (hne : p ≠ q) : (s.createFolder q).hasFolder p = s.hasFolder p := by
  unfold DriveSt.createFolder
  split
  · rfl
  · unfold DriveSt.hasFolder
    simp [List.mem_cons, hne]

/-- Creating a folder never changes a file read. -/
theorem DriveSt.getFile_create_frame (s : DriveSt) (p q : String) :
    (s.createFolder q).getFileSt p = s.getFileSt p := by
  unfold DriveSt.createFolder
  split <;> rfl

/-- Writing a file never changes a folder existence test. -/
theorem DriveSt.hasFolder_write_frame (s : DriveSt) (p q c : String) :
    (s.writeFileSt q c).hasFolder p = s.hasFolder p := rfl

/-- A written file reads back as its content. -/
theorem DriveSt.getFile_write_self (s : DriveSt) (p c : String) :
    (s.writeFileSt p c).getFileSt p = some c :=
  getKey_setKey_self s.files p c

/-- A root-routed create makes the path exist at the FsManager level. -/
theorem fsExists_create_self (st : FsSt) (p : String)
    (hp : ∀ m, mountNameForPath m p = none) :
    fsFolderExists (fsCreateFolder st p) p = true := by
  simp only [fsCreateFolder, fsFolderExists, hp]
  exact DriveSt.hasFolder_create_self st.rootDrive p

/-- A root-routed create keeps every root-routed existing path. -/
theorem fsExists_create_mono (st : FsSt) (p q : String)
    (hp : ∀ m, mountNameForPath m p = none)
    (hq : ∀ m, mountNameForPath m q = none)
    (h : fsFolderExists st p = true) :
    fsFolderExists (fsCreateFolder st q) p = true := by
  simp only [fsCreateFolder, fsFolderExists, hp, hq] at h ⊢
  exact DriveSt.hasFolder_create_mono st.rootDrive p q h

/-- A root-routed create of a different path keeps an existence test. -/
theorem fsExists_create_frame (st : FsSt) (p q : String)
    (hp : ∀ m, mountNameForPath m p = none)
    (hq : ∀ m, mountNameForPath m q = none)
    (hne : p ≠ q) :
    fsFolderExists (fsCreateFolder st q) p = fsFolderExists st p := by
  simp only [fsCreateFolder, fsFolderExists, hp, hq]
  exact DriveSt.hasFolder_create_frame st.rootDrive p q hne

/-- A root-routed write keeps every root-routed existence test. -/
theorem fsExists_write_frame (st : FsSt) (p q c : String)
    (hp : ∀ m, mountNameForPath m p = none)
    (hq : ∀ m, mountNameForPath m q = none) :
    fsFolderExists (fsWriteFile st q c) p = fsFolderExists st p := by
  simp only [fsWriteFile, fsFolderExists, hp, hq]
  exact DriveSt.hasFolder_write_frame st.rootDrive p q c

/-- A root-routed create keeps every root-routed file read. -/
theorem fsGetFile_create_frame (st : FsSt) (p q : String)
    (hp : ∀ m, mountNameForPath m p = none)
    (hq : ∀ m, mountNameForPath m q = none) :
    fsGetFileSt (fsCreateFolder st q) p = fsGetFileSt st p := by
  simp only [fsCreateFolder, fsGetFileSt, hp, hq]
  exact DriveSt.getFile_create_frame st.rootDrive p q

/-- A root-routed write reads back. -/
theorem fsGetFile_write_self (st : FsSt) (p c : String)
    (hp : ∀ m, mountNameForPath m p = none) :
    fsGetFileSt (fsWriteFile st p c) p = some c := by
  simp only [fsWriteFile, fsGetFileSt, hp]
  exact DriveSt.getFile_write_self st.rootDrive p c

/-- After one bootstrap iteration its own folder exists. -/
theorem setupDirStep_ensures (acc : FsSt × List SetupAction) (dir : String)
    (hd : ∀ m, mountNameForPath m dir = none) :
    fsFolderExists (setupDirStep acc dir).1 dir = true := by
  unfold setupDirStep
  by_cases hc : fsFolderExists acc.1 dir = true
  · rw [if_pos hc]
    exact hc
  · rw [if_neg hc]
    exact fsExists_create_self acc.1 dir hd

/-- A bootstrap iteration keeps every root-routed existing folder. -/
theorem setupDirStep_mono (acc : FsSt × List SetupAction) (dir p : String)
    (hp : ∀ m, mountNameForPath m p = none)
    (hd : ∀ m, mountNameForPath m dir = none)
    (h : fsFolderExists acc.1 p = true) :
    fsFolderExists (setupDirStep acc dir).1 p = true := by
  unfold setupDirStep
  by_cases hc : fsFolderExists acc.1 dir = true
  · rw [if_pos hc]
    exact h
  · rw [if_neg hc]
    exact fsExists_create_mono acc.1 p dir hp hd h

/-- A bootstrap iteration for a different folder keeps an existence
test unchanged. -/
theorem setupDirStep_exists_frame (acc : FsSt × List SetupAction)
    (dir p : String)
    (hp : ∀ m, mountNameForPath m p = none)
    (hd : ∀ m, mountNameForPath m dir = none)
    (hne : p ≠ dir) :
    fsFolderExists (setupDirStep acc dir).1 p = fsFolderExists acc.1 p := by
  unfold setupDirStep
  by_cases hc : fsFolderExists acc.1 dir = true
  · rw [if_pos hc]
  · rw [if_neg hc]
    exact fsExists_create_frame acc.1 p dir hp hd hne

/-- A bootstrap iteration keeps every root-routed file read. -/
theorem setupDirStep_file_frame (acc : FsSt × List SetupAction)
    (dir q : String)
    (hq : ∀ m, mountNameForPath m q = none)
    (hd : ∀ m, mountNameForPath m dir = none) :
    fsGetFileSt (setupDirStep acc dir).1 q = fsGetFileSt acc.1 q := by
  unfold setupDirStep
  by_cases hc : fsFolderExists acc.1 dir = true
  · rw [if_pos hc]
  · rw [if_neg hc]
    exact fsGetFile_create_frame acc.1 q dir hq hd

/-- The log of one bootstrap iteration: the incoming log, plus the
create of its folder exactly when that folder was absent. -/
theorem setupDirStep_log (acc : FsSt × List SetupAction) (dir : String)
    (a : SetupAction) :
    a ∈ (setupDirStep acc dir).2 ↔
      a ∈ acc.2 ∨ (a = .createdFolder dir
        ∧ fsFolderExists acc.1 dir = false) := by
  unfold setupDirStep
  by_cases hc : fsFolderExists acc.1 dir = true
  · rw [if_pos hc]
    simp [hc]
  · rw [if_neg hc]
    have hc2 : fsFolderExists acc.1 dir = false := by
      cases hb : fsFolderExists acc.1 dir
      · rfl
      · exact absurd hb hc
    simp [hc2, List.mem_append]

/-- A bootstrap iteration over an already existing folder is the
identity. -/
theorem setupDirStep_noop (acc : FsSt × List SetupAction) (dir : String)
    (h : fsFolderExists acc.1 dir = true) : setupDirStep acc dir = acc := by
  unfold setupDirStep
  rw [if_pos h]

/-- After one bootstrap run, the three well-known folders exist and the
registry file resolves. -/
theorem setup_post (st : FsSt) :
    fsFolderExists (setupDefaultDirectories st).1 SYSTEM_PATH = true
    ∧ fsFolderExists (setupDefaultDirectories st).1 PROGRAMS_PATH = true
    ∧ fsFolderExists (setupDefaultDirectories st).1 USER_PATH = true
    ∧ (fsGetFileSt (setupDefaultDirectories st).1 REGISTRY_PATH).isSome
        = true := by
  have e1 : fsFolderExists
      (setupDirStep (st, ([] : List SetupAction)) SYSTEM_PATH).1 SYSTEM_PATH
      = true := setupDirStep_ensures _ _ route_system
  have e1b : fsFolderExists
      (setupDirStep (setupDirStep (st, ([] : List SetupAction)) SYSTEM_PATH)
        PROGRAMS_PATH).1 SYSTEM_PATH = true :=
    setupDirStep_mono _ _ _ route_system route_programs e1
  have e1c : fsFolderExists
      (setupDirStep (setupDirStep
        (setupDirStep (st, ([] : List SetupAction)) SYSTEM_PATH)
        PROGRAMS_PATH) USER_PATH).1 SYSTEM_PATH = true :=
    setupDirStep_mono _ _ _ route_system route_user e1b
  have e2 : fsFolderExists
      (setupDirStep (setupDirStep (st, ([] : List SetupAction)) SYSTEM_PATH)
        PROGRAMS_PATH).1 PROGRAMS_PATH = true :=
    setupDirStep_ensures _ _ route_programs
  have e2c : fsFolderExists
      (setupDirStep (setupDirStep
        (setupDirStep (st, ([] : List SetupAction)) SYSTEM_PATH)
        PROGRAMS_PATH) USER_PATH).1 PROGRAMS_PATH = true :=
    setupDirStep_mono _ _ _ route_programs route_user e2
  have e3 : fsFolderExists
      (setupDirStep (setupDirStep
        (setupDirStep (st, ([] : List SetupAction)) SYSTEM_PATH)
        PROGRAMS_PATH) USER_PATH).1 USER_PATH = true :=
    setupDirStep_ensures _ _ route_user
  by_cases hreg : (fsGetFileSt
      (setupDirStep (setupDirStep
        (setupDirStep (st, ([] : List SetupAction)) SYSTEM_PATH)
        PROGRAMS_PATH) USER_PATH).1 REGISTRY_PATH).isSome = true
  · have hset : setupDefaultDirectories st
        = setupDirStep (setupDirStep
            (setupDirStep (st, ([] : List SetupAction)) SYSTEM_PATH)
            PROGRAMS_PATH) USER_PATH := by
      simp only [setupDefaultDirectories, List.foldl_cons, List.foldl_nil]
      rw [if_pos hreg]
    rw [hset]
    exact ⟨e1c, e2c, e3, hreg⟩
  · have hset : setupDefaultDirectories st
        = (fsWriteFile (setupDirStep (setupDirStep
            (setupDirStep (st, ([] : List SetupAction)) SYSTEM_PATH)
            PROGRAMS_PATH) USER_PATH).1 REGISTRY_PATH "\x7b\x7d",
          (setupDirStep (setupDirStep
            (setupDirStep (st, ([] : List SetupAction)) SYSTEM_PATH)
            PROGRAMS_PATH) USER_PATH).2
            ++ [.wroteFile REGISTRY_PATH "\x7b\x7d"]) := by
      simp only [setupDefaultDirectories, List.foldl_cons, List.foldl_nil]
      rw [if_neg hreg]
    rw [hset]
    refine ⟨?_, ?_, ?_, ?_⟩
    · rw [fsExists_write_frame _ _ _ _ route_system route_registry]
      exact e1c
    · rw [fsExists_write_frame _ _ _ _ route_programs route_registry]
      exact e2c
    · rw [fsExists_write_frame _ _ _ _ route_user route_registry]
      exact e3
    · rw [fsGetFile_write_self _ _ _ route_registry]
      rfl

/-- Rerunning the bootstrap on a state where everything already exists
performs nothing and logs nothing. -/
theorem setup_noop (s : FsSt)
    (h1 : fsFolderExists s SYSTEM_PATH = true)
    (h2 : fsFolderExists s PROGRAMS_PATH = true)
    (h3 : fsFolderExists s USER_PATH = true)
    (h4 : (fsGetFileSt s REGISTRY_PATH).isSome = true) :
    setupDefaultDirectories s = (s, []) := by
  have n1 : setupDirStep (s, ([] : List SetupAction)) SYSTEM_PATH = (s, []) :=
    setupDirStep_noop _ _ h1
  have n2 : setupDirStep (s, ([] : List SetupAction)) PROGRAMS_PATH
      = (s, []) := setupDirStep_noop _ _ h2
  have n3 : setupDirStep (s, ([] : List SetupAction)) USER_PATH
      = (s, []) := setupDirStep_noop _ _ h3
  simp only [setupDefaultDirectories, List.foldl_cons, List.foldl_nil,
    n1, n2, n3]
  rw [if_pos h4]

/-- The full bootstrap log: each well-known folder is created exactly
when absent beforehand, and the registry file written with the fixed
initial content exactly when absent beforehand. -/
theorem setup_log_iff (st : FsSt) (a : SetupAction) :
    a ∈ (setupDefaultDirectories st).2 ↔
      (a = .createdFolder SYSTEM_PATH ∧ fsFolderExists st SYSTEM_PATH = false)
      ∨ (a = .createdFolder PROGRAMS_PATH
          ∧ fsFolderExists st PROGRAMS_PATH = false)
      ∨ (a = .createdFolder USER_PATH ∧ fsFolderExists st USER_PATH = false)
      ∨ (a = .wroteFile REGISTRY_PATH "\x7b\x7d"
          ∧ (fsGetFileSt st REGISTRY_PATH).isSome = false) := by
  have hFP : fsFolderExists
      (setupDirStep (st, ([] : List SetupAction)) SYSTEM_PATH).1 PROGRAMS_PATH
      = fsFolderExists st PROGRAMS_PATH :=
    setupDirStep_exists_frame _ _ _ route_programs route_system (by decide)
  have hFU1 : fsFolderExists
      (setupDirStep (st, ([] : List SetupAction)) SYSTEM_PATH).1 USER_PATH
      = fsFolderExists st USER_PATH :=
    setupDirStep_exists_frame _ _ _ route_user route_system (by decide)
  have hFU2 : fsFolderExists
      (setupDirStep (setupDirStep (st, ([] : List SetupAction)) SYSTEM_PATH)
        PROGRAMS_PATH).1 USER_PATH
      = fsFolderExists
          (setupDirStep (st, ([] : List SetupAction)) SYSTEM_PATH).1
          USER_PATH :=
    setupDirStep_exists_frame _ _ _ route_user route_programs (by decide)
  have hFR1 : fsGetFileSt
      (setupDirStep (st, ([] : List SetupAction)) SYSTEM_PATH).1 REGISTRY_PATH
      = fsGetFileSt st REGISTRY_PATH :=
    setupDirStep_file_frame _ _ _ route_registry route_system
  have hFR2 : fsGetFileSt
      (setupDirStep (setupDirStep (st, ([] : List SetupAction)) SYSTEM_PATH)
        PROGRAMS_PATH).1 REGISTRY_PATH
      = fsGetFileSt
          (setupDirStep (st, ([] : List SetupAction)) SYSTEM_PATH).1
          REGISTRY_PATH :=
    setupDirStep_file_frame _ _ _ route_registry route_programs
  have hFR3 : fsGetFileSt
      (setupDirStep (setupDirStep
        (setupDirStep (st, ([] : List SetupAction)) SYSTEM_PATH)
        PROGRAMS_PATH) USER_PATH).1 REGISTRY_PATH
      = fsGetFileSt
          (setupDirStep (setupDirStep (st, ([] : List SetupAction))
            SYSTEM_PATH) PROGRAMS_PATH).1 REGISTRY_PATH :=
    setupDirStep_file_frame _ _ _ route_registry route_user
  have m3 := setupDirStep_log (setupDirStep (setupDirStep
    (st, ([] : List SetupAction)) SYSTEM_PATH) PROGRAMS_PATH) USER_PATH a
  have m2 := setupDirStep_log
    (setupDirStep (st, ([] : List SetupAction)) SYSTEM_PATH) PROGRAMS_PATH a
  have m1 := setupDirStep_log (st, ([] : List SetupAction)) SYSTEM_PATH a
  by_cases hreg : (fsGetFileSt
      (setupDirStep (setupDirStep
        (setupDirStep (st, ([] : List SetupAction)) SYSTEM_PATH)
        PROGRAMS_PATH) USER_PATH).1 REGISTRY_PATH).isSome = true
  · have hset : setupDefaultDirectories st
        = setupDirStep (setupDirStep
            (setupDirStep (st, ([] : List SetupAction)) SYSTEM_PATH)
            PROGRAMS_PATH) USER_PATH := by
      simp only [setupDefaultDirectories, List.foldl_cons, List.foldl_nil]
      rw [if_pos hreg]
    have hreg2 : (fsGetFileSt st REGISTRY_PATH).isSome = true := by
      rw [← hFR1, ← hFR2, ← hFR3]
      exact hreg
    rw [hset, m3, m2, m1, hFP, hFU2, hFU1]
    simp only [hreg2, List.not_mem_nil, false_or]
    constructor
    · rintro ((h | h) | h)
      · exact Or.inl h
      · exact Or.inr (Or.inl h)
      · exact Or.inr (Or.inr (Or.inl h))
    · rintro (h | h | h | h)
      · exact Or.inl (Or.inl h)
      · exact Or.inl (Or.inr h)
      · exact Or.inr h
      · simp at h
  · have hset : setupDefaultDirectories st
        = (fsWriteFile (setupDirStep (setupDirStep
            (setupDirStep (st, ([] : List SetupAction)) SYSTEM_PATH)
            PROGRAMS_PATH) USER_PATH).1 REGISTRY_PATH "\x7b\x7d",
          (setupDirStep (setupDirStep
            (setupDirStep (st, ([] : List SetupAction)) SYSTEM_PATH)
            PROGRAMS_PATH) USER_PATH).2
            ++ [.wroteFile REGISTRY_PATH "\x7b\x7d"]) := by
      simp only [setupDefaultDirectories, List.foldl_cons, List.foldl_nil]
      rw [if_neg hreg]
    have hreg0 : (fsGetFileSt (setupDirStep (setupDirStep
        (setupDirStep (st, ([] : List SetupAction)) SYSTEM_PATH)
        PROGRAMS_PATH) USER_PATH).1 REGISTRY_PATH).isSome = false := by
      cases hb : (fsGetFileSt (setupDirStep (setupDirStep
          (setupDirStep (st, ([] : List SetupAction)) SYSTEM_PATH)
          PROGRAMS_PATH) USER_PATH).1 REGISTRY_PATH).isSome
      · rfl
      · exact absurd hb hreg
    have hreg2 : (fsGetFileSt st REGISTRY_PATH).isSome = false := by
      rw [← hFR1, ← hFR2, ← hFR3]
      exact hreg0
    rw [hset]
    show a ∈ (setupDirStep (setupDirStep
        (setupDirStep (st, ([] : List SetupAction)) SYSTEM_PATH)
        PROGRAMS_PATH) USER_PATH).2
        ++ [.wroteFile REGISTRY_PATH "\x7b\x7d"] ↔ _
    rw [List.mem_append, m3, m2, m1, hFP, hFU2, hFU1]
    simp only [hreg2, List.not_mem_nil, false_or, List.mem_singleton,
      and_true]
    constructor
    · rintro (((h | h) | h) | h)
      · exact Or.inl h
      · exact Or.inr (Or.inl h)
      · exact Or.inr (Or.inr (Or.inl h))
      · exact Or.inr (Or.inr (Or.inr h))
    · rintro (h | h | h | h)
      · exact Or.inl (Or.inl (Or.inl h))
      · exact Or.inl (Or.inl (Or.inr h))
      · exact Or.inl (Or.inr h)
      · exact Or.inr h

/-- Claim C6: setupDefaultDirectories creates each of the three
well-known folders exactly when a shallow getFolder of that path
resolves to null, writes the registry file with its fixed initial
content exactly when a shallow getFile of its path resolves to null,
and a second run immediately after a run performs no create and no
write and leaves the state unchanged. -/
theorem setup_idempotent (st : FsSt) :
    setupDefaultDirectories (setupDefaultDirectories st).1
      = ((setupDefaultDirectories st).1, [])
    ∧ (SetupAction.createdFolder SYSTEM_PATH ∈ (setupDefaultDirectories st).2
        ↔ fsFolderExists st SYSTEM_PATH = false)
    ∧ (SetupAction.createdFolder PROGRAMS_PATH
          ∈ (setupDefaultDirectories st).2
        ↔ fsFolderExists st PROGRAMS_PATH = false)
    ∧ (SetupAction.createdFolder USER_PATH ∈ (setupDefaultDirectories st).2
        ↔ fsFolderExists st USER_PATH = false)
    ∧ (SetupAction.wroteFile REGISTRY_PATH "\x7b\x7d"
          ∈ (setupDefaultDirectories st).2
        ↔ (fsGetFileSt st REGISTRY_PATH).isSome = false) := by
  obtain ⟨p1, p2, p3, p4⟩ := setup_post st
  refine ⟨setup_noop _ p1 p2 p3 p4, ?_, ?_, ?_, ?_⟩
  · rw [setup_log_iff]
    have d1 : SetupAction.createdFolder SYSTEM_PATH
        ≠ SetupAction.createdFolder PROGRAMS_PATH := by decide
    have d2 : SetupAction.createdFolder SYSTEM_PATH
        ≠ SetupAction.createdFolder USER_PATH := by decide
    have d3 : SetupAction.createdFolder SYSTEM_PATH
        ≠ SetupAction.wroteFile REGISTRY_PATH "\x7b\x7d" := by decide
    simp [d1, d2, d3]
  · rw [setup_log_iff]
    have d1 : SetupAction.createdFolder PROGRAMS_PATH
        ≠ SetupAction.createdFolder SYSTEM_PATH := by decide
    have d2 : SetupAction.createdFolder PROGRAMS_PATH
        ≠ SetupAction.createdFolder USER_PATH := by decide
    have d3 : SetupAction.createdFolder PROGRAMS_PATH
        ≠ SetupAction.wroteFile REGISTRY_PATH "\x7b\x7d" := by decide
    simp [d1, d2, d3]
  · rw [setup_log_iff]
    have d1 : SetupAction.createdFolder USER_PATH
        ≠ SetupAction.createdFolder SYSTEM_PATH := by decide
    have d2 : SetupAction.createdFolder USER_PATH
        ≠ SetupAction.createdFolder PROGRAMS_PATH := by decide
    have d3 : SetupAction.createdFolder USER_PATH
        ≠ SetupAction.wroteFile REGISTRY_PATH "\x7b\x7d" := by decide
    simp [d1, d2, d3]
  · rw [setup_log_iff]
    have d1 : SetupAction.wroteFile REGISTRY_PATH "\x7b\x7d"
        ≠ SetupAction.createdFolder SYSTEM_PATH := by decide
    have d2 : SetupAction.wroteFile REGISTRY_PATH "\x7b\x7d"
        ≠ SetupAction.createdFolder PROGRAMS_PATH := by decide
    have d3 : SetupAction.wroteFile REGISTRY_PATH "\x7b\x7d"
        ≠ SetupAction.createdFolder USER_PATH := by decide
    simp [d1, d2, d3]

/-- Witness for claim C6 at the concrete empty state: the run after the
first run changes nothing and performs nothing. -/
theorem setup_idempotent_witness :
    setupDefaultDirectories (setupDefaultDirectories emptyFs).1
      = ((setupDefaultDirectories emptyFs).1, []) :=
  (setup_idempotent emptyFs).1

/-- Claim C7: hasSystemData is true exactly when the shallow read of the
well-known system folder resolves to a non-null value; it is false while
that folder is absent and true immediately after the folder is
created. -/
theorem hasSystemData_spec (st : FsSt) :
    (hasSystemData st = true ↔ fsFolderExists st SYSTEM_PATH = true)
    ∧ hasSystemData (fsCreateFolder st SYSTEM_PATH) = true
    ∧ (fsFolderExists st SYSTEM_PATH = false → hasSystemData st = false) := by
  refine ⟨Iff.rfl, ?_, ?_⟩
  · exact fsExists_create_self st SYSTEM_PATH route_system
  · intro h
    exact h

/-- Witness for claim C7 at the concrete empty state: false before the
system folder is created, true immediately after. -/
theorem hasSystemData_spec_witness :
    hasSystemData emptyFs = false
    ∧ hasSystemData (fsCreateFolder emptyFs SYSTEM_PATH) = true := by
  constructor
  · exact (hasSystemData_spec emptyFs).2.2 (by decide)
  · exact (hasSystemData_spec emptyFs).2.1

/-- Reading back the atom map updMap set. -/
theorem atomsMap_updMap (st : CacheSt) (k : AtomMapKind)
    (m : List (String × CacheEntry)) (n : Nat) (ts : List (Nat × Nat)) :
    (st.updMap k m n ts).atomsMap k = m := by
  cases k <;> rfl

/-- updMap leaves the atom maps of the other kinds unchanged. -/
theorem atomsMap_updMap_ne (st : CacheSt) {k k2 : AtomMapKind}
    (m : List (String × CacheEntry)) (n : Nat) (ts : List (Nat × Nat))
    (h : k2 ≠ k) :
    (st.updMap k m n ts).atomsMap k2 = st.atomsMap k2 := by
  cases k <;> cases k2 <;> first | rfl | exact absurd rfl h

/-- The timers updMap set. -/
theorem timers_updMap (st : CacheSt) (k : AtomMapKind)
    (m : List (String × CacheEntry)) (n : Nat) (ts : List (Nat × Nat)) :
    (st.updMap k m n ts).timers = ts := by
  cases k <;> rfl

/-- The counter updMap set. -/
theorem nextId_updMap (st : CacheSt) (k : AtomMapKind)
    (m : List (String × CacheEntry)) (n : Nat) (ts : List (Nat × Nat)) :
    (st.updMap k m n ts).nextId = n := by
  cases k <;> rfl

/-- A deleted key no longer resolves. -/
theorem getKey_delKey_self {α : Type} (l : List (String × α)) (p : String) :
    getKey (delKey l p) p = none := by
  induction l with
  | nil => rfl
  | cons e es ih =>
      by_cases h : e.1 = p
      · simp [delKey, h, ih]
      · simp [delKey, getKey, h, ih]

/-- Deleting one key leaves every other lookup unchanged. -/
theorem getKey_delKey_ne {α : Type} (l : List (String × α)) {p q : String}
    (h : q ≠ p) : getKey (delKey l p) q = getKey l q := by
  induction l with
  | nil => rfl
  | cons e es ih =>
      by_cases he : e.1 = p
      · have hpq : ¬ p = q := fun hpq => h hpq.symm
        simp [delKey, he, getKey, hpq, ih]
      · simp [delKey, getKey, he, ih]

/-- Erasing a timer id only removes timers. -/
theorem mem_eraseTimer {ts : List (Nat × Nat)} {tid : Nat} {t : Nat × Nat}
    (h : t ∈ eraseTimer ts tid) : t ∈ ts := by
  induction ts with
  | nil => cases h
  | cons u us ih =>
      by_cases hu : u.1 = tid
      · rw [eraseTimer, if_pos hu] at h
        exact List.mem_cons_of_mem _ (ih h)
      · rw [eraseTimer, if_neg hu] at h
        rcases List.mem_cons.mp h with h | h
        · exact h ▸ List.mem_cons_self _ _
        · exact List.mem_cons_of_mem _ (ih h)

/-- The erased timer id is gone. -/
theorem eraseTimer_not_mem (ts : List (Nat × Nat)) (tid period : Nat) :
    (tid, period) ∉ eraseTimer ts tid := by
  induction ts with
  | nil => intro h; cases h
  | cons u us ih =>
      by_cases hu : u.1 = tid
      · rw [eraseTimer, if_pos hu]
        exact ih
      · rw [eraseTimer, if_neg hu]
        intro h
        rcases List.mem_cons.mp h with h | h
        · exact hu (congrArg Prod.fst h.symm)
        · exact ih h

/-- getFolderAtom and getFileAtom on a present key return the cached
atom and change nothing. -/
theorem getAtom_of_mem (st : CacheSt) (k : AtomMapKind) (p : String)
    (e : CacheEntry) (hk : getKey (st.atomsMap k) p = some e) :
    getAtom st k p = (st, e.eid) := by
  unfold getAtom
  rw [hk]

/-- getFolderAtom and getFileAtom on an absent key append a fresh,
unmounted entry carrying the next identity. -/
theorem getAtom_of_none (st : CacheSt) (k : AtomMapKind) (p : String)
    (hk : getKey (st.atomsMap k) p = none) :
    getAtom st k p = (st.updMap k
        ((st.atomsMap k) ++ [(p, CacheEntry.mk st.nextId 0 none)])
        (st.nextId + 1) st.timers, st.nextId) := by
  unfold getAtom
  rw [hk]

/-- The atom-fetch step preserves the cache invariant. -/
theorem inv_getAtom (st : CacheSt) (k : AtomMapKind) (p : String)
    (hI : CacheInv st) : CacheInv (getAtom st k p).1 := by
  cases hk : getKey (st.atomsMap k) p with
  | some e =>
      rw [getAtom_of_mem st k p e hk]
      exact hI
  | none =>
      obtain ⟨h500, hids, hzero⟩ := hI
      rw [getAtom_of_none st k p hk]
      refine ⟨?_, ?_, ?_⟩
      · intro t ht
        rw [timers_updMap] at ht
        exact h500 t ht
      · intro k2 q e' he'
        rw [nextId_updMap]
        by_cases hk2 : k2 = k
        · subst hk2
          rw [atomsMap_updMap, getKey_append] at he'
          cases hq : getKey (st.atomsMap k2) q with
          | some v =>
              simp only [hq] at he'
              cases he'
              exact Nat.lt_succ_of_lt (hids k2 q _ hq)
          | none =>
              simp only [hq] at he'
              by_cases hpq : p = q
              · simp only [getKey, hpq, if_pos] at he'
                cases he'
                exact Nat.lt_succ_self _
              · simp [getKey, hpq] at he'
        · rw [atomsMap_updMap_ne _ _ _ _ hk2] at he'
          exact Nat.lt_succ_of_lt (hids k2 q e' he')
      · intro k2 q e' he' hs
        by_cases hk2 : k2 = k
        · subst hk2
          rw [atomsMap_updMap, getKey_append] at he'
          cases hq : getKey (st.atomsMap k2) q with
          | some v =>
              simp only [hq] at he'
              cases he'
              exact hzero k2 q _ hq hs
          | none =>
              simp only [hq] at he'
              by_cases hpq : p = q
              · simp only [getKey, hpq, if_pos] at he'
                cases he'
                rfl
              · simp [getKey, hpq] at he'
        · rw [atomsMap_updMap_ne _ _ _ _ hk2] at he'
          exact hzero k2 q e' he' hs

/-- Subscribing to a cached but unmounted entry: count one, fresh timer
with period 500. -/
theorem subscribe_of_mem_zero (st : CacheSt) (k : AtomMapKind) (p : String)
    (e : CacheEntry) (hk : getKey (st.atomsMap k) p = some e)
    (h0 : e.subs = 0) :
    subscribe st k p = st.updMap k (setKey (st.atomsMap k) p
        { e with subs := 1, timerId := some st.nextId })
      (st.nextId + 1) (st.timers ++ [(st.nextId, 500)]) := by
  simp only [subscribe, getAtom_of_mem st k p e hk, hk]
  rw [if_pos h0]

/-- Subscribing to an already subscribed entry only counts up. -/
theorem subscribe_of_mem_pos (st : CacheSt) (k : AtomMapKind) (p : String)
    (e : CacheEntry) (hk : getKey (st.atomsMap k) p = some e)
    (h0 : ¬ e.subs = 0) :
    subscribe st k p = st.updMap k (setKey (st.atomsMap k) p
        { e with subs := e.subs + 1 })
      st.nextId st.timers := by
  simp only [subscribe, getAtom_of_mem st k p e hk, hk]
  rw [if_neg h0]

/-- The fetched entry after creating a missing key. -/
theorem getAtom_created (st : CacheSt) (k : AtomMapKind) (p : String)
    (hk : getKey (st.atomsMap k) p = none) :
    getKey (((getAtom st k p).1).atomsMap k) p
      = some (CacheEntry.mk st.nextId 0 none) := by
  rw [getAtom_of_none st k p hk]
  show getKey ((st.updMap k ((st.atomsMap k)
      ++ [(p, CacheEntry.mk st.nextId 0 none)])
      (st.nextId + 1) st.timers).atomsMap k) p = _
  rw [atomsMap_updMap, getKey_append, hk]
  simp [getKey]

/-- Subscribing to a missing key: the entry is created by the atom fetch
and then mounted with one subscriber and a fresh period-500 timer. -/
theorem subscribe_of_none (st : CacheSt) (k : AtomMapKind) (p : String)
    (hk : getKey (st.atomsMap k) p = none) :
    subscribe st k p = ((getAtom st k p).1).updMap k
      (setKey (((getAtom st k p).1).atomsMap k) p
        { CacheEntry.mk st.nextId 0 none with
            subs := 1, timerId := some ((getAtom st k p).1).nextId })
      (((getAtom st k p).1).nextId + 1)
      (((getAtom st k p).1).timers ++ [(((getAtom st k p).1).nextId, 500)]) := by
  simp only [subscribe, getAtom_created st k p hk]
  simp

/-- Unsubscribing a missing key does nothing. -/
theorem unsubscribe_of_none (st : CacheSt) (k : AtomMapKind) (p : String)
    (hk : getKey (st.atomsMap k) p = none) : unsubscribe st k p = st := by
  unfold unsubscribe
  rw [hk]

/-- The last unsubscribe clears the interval and deletes the entry. -/
theorem unsubscribe_of_one (st : CacheSt) (k : AtomMapKind) (p : String)
    (e : CacheEntry) (hk : getKey (st.atomsMap k) p = some e)
    (h1 : e.subs = 1) :
    unsubscribe st k p = st.updMap k (delKey (st.atomsMap k) p)
      st.nextId (clearTimer st.timers e.timerId) := by
  simp only [unsubscribe, hk]
  rw [if_pos h1]

/-- A non-last unsubscribe only counts down. -/
theorem unsubscribe_of_many (st : CacheSt) (k : AtomMapKind) (p : String)
    (e : CacheEntry) (hk : getKey (st.atomsMap k) p = some e)
    (h1 : ¬ e.subs = 1) (h0 : ¬ e.subs = 0) :
    unsubscribe st k p = st.updMap k (setKey (st.atomsMap k) p
        { e with subs := e.subs - 1 })
      st.nextId st.timers := by
  simp only [unsubscribe, hk]
  rw [if_neg h1, if_neg h0]

/-- The mounting transition of a present entry preserves the cache
invariant. -/
theorem inv_subscribe_then (st : CacheSt) (k : AtomMapKind) (p : String)
    (e : CacheEntry) (hk : getKey (st.atomsMap k) p = some e)
    (hI : CacheInv st) :
    CacheInv (st.updMap k (setKey (st.atomsMap k) p
        { e with subs := 1, timerId := some st.nextId })
      (st.nextId + 1) (st.timers ++ [(st.nextId, 500)])) := by
  obtain ⟨h500, hids, hzero⟩ := hI
  refine ⟨?_, ?_, ?_⟩
  · intro t ht
    rw [timers_updMap] at ht
    rcases List.mem_append.mp ht with h | h
    · exact h500 t h
    · rw [List.mem_singleton] at h
      rw [h]
  · intro k2 q e' he'
    rw [nextId_updMap]
    by_cases hk2 : k2 = k
    · subst hk2
      rw [atomsMap_updMap] at he'
      by_cases hpq : q = p
      · subst hpq
        rw [getKey_setKey_self] at he'
        cases he'
        exact Nat.lt_succ_of_lt (hids k2 q e hk)
      · rw [getKey_setKey_ne _ _ hpq] at he'
        exact Nat.lt_succ_of_lt (hids k2 q e' he')
    · rw [atomsMap_updMap_ne _ _ _ _ hk2] at he'
      exact Nat.lt_succ_of_lt (hids k2 q e' he')
  · intro k2 q e' he' hs
    by_cases hk2 : k2 = k
    · subst hk2
      rw [atomsMap_updMap] at he'
      by_cases hpq : q = p
      · subst hpq
        rw [getKey_setKey_self] at he'
        cases he'
        exact absurd hs (by simp)
      · rw [getKey_setKey_ne _ _ hpq] at he'
        exact hzero k2 q e' he' hs
    · rw [atomsMap_updMap_ne _ _ _ _ hk2] at he'
      exact hzero k2 q e' he' hs

/-- The count-up transition of a subscribed entry preserves the cache
invariant. -/
theorem inv_subscribe_else (st : CacheSt) (k : AtomMapKind) (p : String)
    (e : CacheEntry) (hk : getKey (st.atomsMap k) p = some e)
    (hI : CacheInv st) :
    CacheInv (st.updMap k (setKey (st.atomsMap k) p
        { e with subs := e.subs + 1 })
      st.nextId st.timers) := by
  obtain ⟨h500, hids, hzero⟩ := hI
  refine ⟨?_, ?_, ?_⟩
  · intro t ht
    rw [timers_updMap] at ht
    exact h500 t ht
  · intro k2 q e' he'
    rw [nextId_updMap]
    by_cases hk2 : k2 = k
    · subst hk2
      rw [atomsMap_updMap] at he'
      by_cases hpq : q = p
      · subst hpq
        rw [getKey_setKey_self] at he'
        cases he'
        exact hids k2 q e hk
      · rw [getKey_setKey_ne _ _ hpq] at he'
        exact hids k2 q e' he'
    · rw [atomsMap_updMap_ne _ _ _ _ hk2] at he'
      exact hids k2 q e' he'
  · intro k2 q e' he' hs
    by_cases hk2 : k2 = k
    · subst hk2
      rw [atomsMap_updMap] at he'
      by_cases hpq : q = p
      · subst hpq
        rw [getKey_setKey_self] at he'
        cases he'
        exact absurd hs (Nat.succ_ne_zero e.subs)
      · rw [getKey_setKey_ne _ _ hpq] at he'
        exact hzero k2 q e' he' hs
    · rw [atomsMap_updMap_ne _ _ _ _ hk2] at he'
      exact hzero k2 q e' he' hs

/-- The subscribe step preserves the cache invariant. -/
theorem inv_subscribe (st : CacheSt) (k : AtomMapKind) (p : String)
    (hI : CacheInv st) : CacheInv (subscribe st k p) := by
  cases hk : getKey (st.atomsMap k) p with
  | some e =>
      have h1 : (getAtom st k p).1 = st := by
        rw [getAtom_of_mem st k p e hk]
      by_cases h0 : e.subs = 0
      · rw [subscribe_of_mem_zero st k p e hk h0]
        exact inv_subscribe_then st k p e hk hI
      · rw [subscribe_of_mem_pos st k p e hk h0]
        exact inv_subscribe_else st k p e hk hI
  | none =>
      have hI1 : CacheInv (getAtom st k p).1 := inv_getAtom st k p hI
      rw [subscribe_of_none st k p hk]
      exact inv_subscribe_then (getAtom st k p).1 k p
        (CacheEntry.mk st.nextId 0 none) (getAtom_created st k p hk) hI1

/-- Every timer surviving clearInterval was running before. -/
theorem mem_clearTimer {ts : List (Nat × Nat)} {o : Option Nat}
    {t : Nat × Nat} (h : t ∈ clearTimer ts o) : t ∈ ts := by
  cases o with
  | none => exact h
  | some tid => exact mem_eraseTimer h

/-- The teardown transition of a once-subscribed entry preserves the
cache invariant. -/
theorem inv_unsubscribe_one (st : CacheSt) (k : AtomMapKind) (p : String)
    (e : CacheEntry) (hI : CacheInv st) :
    CacheInv (st.updMap k (delKey (st.atomsMap k) p)
      st.nextId (clearTimer st.timers e.timerId)) := by
  obtain ⟨h500, hids, hzero⟩ := hI
  refine ⟨?_, ?_, ?_⟩
  · intro t ht
    rw [timers_updMap] at ht
    exact h500 t (mem_clearTimer ht)
  · intro k2 q e' he'
    rw [nextId_updMap]
    by_cases hk2 : k2 = k
    · subst hk2
      rw [atomsMap_updMap] at he'
      by_cases hpq : q = p
      · subst hpq
        rw [getKey_delKey_self] at he'
        cases he'
      · rw [getKey_delKey_ne _ hpq] at he'
        exact hids k2 q e' he'
    · rw [atomsMap_updMap_ne _ _ _ _ hk2] at he'
      exact hids k2 q e' he'
  · intro k2 q e' he' hs
    by_cases hk2 : k2 = k
    · subst hk2
      rw [atomsMap_updMap] at he'
      by_cases hpq : q = p
      · subst hpq
        rw [getKey_delKey_self] at he'
        cases he'
      · rw [getKey_delKey_ne _ hpq] at he'
        exact hzero k2 q e' he' hs
    · rw [atomsMap_updMap_ne _ _ _ _ hk2] at he'
      exact hzero k2 q e' he' hs

/-- The count-down transition of a multiply subscribed entry preserves
the cache invariant. -/
theorem inv_unsubscribe_many (st : CacheSt) (k : AtomMapKind) (p : String)
    (e : CacheEntry) (hk : getKey (st.atomsMap k) p = some e)
    (h1 : ¬ e.subs = 1) (h0 : ¬ e.subs = 0) (hI : CacheInv st) :
    CacheInv (st.updMap k (setKey (st.atomsMap k) p
        { e with subs := e.subs - 1 })
      st.nextId st.timers) := by
  obtain ⟨h500, hids, hzero⟩ := hI
  refine ⟨?_, ?_, ?_⟩
  · intro t ht
    rw [timers_updMap] at ht
    exact h500 t ht
  · intro k2 q e' he'
    rw [nextId_updMap]
    by_cases hk2 : k2 = k
    · subst hk2
      rw [atomsMap_updMap] at he'
      by_cases hpq : q = p
      · subst hpq
        rw [getKey_setKey_self] at he'
        cases he'
        exact hids k2 q e hk
      · rw [getKey_setKey_ne _ _ hpq] at he'
        exact hids k2 q e' he'
    · rw [atomsMap_updMap_ne _ _ _ _ hk2] at he'
      exact hids k2 q e' he'
  · intro k2 q e' he' hs
    by_cases hk2 : k2 = k
    · subst hk2
      rw [atomsMap_updMap] at he'
      by_cases hpq : q = p
      · subst hpq
        rw [getKey_setKey_self] at he'
        cases he'
        have hs2 : e.subs - 1 = 0 := hs
        exact absurd hs2 (by omega)
      · rw [getKey_setKey_ne _ _ hpq] at he'
        exact hzero k2 q e' he' hs
    · rw [atomsMap_updMap_ne _ _ _ _ hk2] at he'
      exact hzero k2 q e' he' hs

/-- The unsubscribe step preserves the cache invariant. -/
theorem inv_unsubscribe (st : CacheSt) (k : AtomMapKind) (p : String)
    (hI : CacheInv st) : CacheInv (unsubscribe st k p) := by
  cases hk : getKey (st.atomsMap k) p with
  | none =>
      rw [unsubscribe_of_none st k p hk]
      exact hI
  | some e =>
      by_cases h1 : e.subs = 1
      · rw [unsubscribe_of_one st k p e hk h1]
        exact inv_unsubscribe_one st k p e hI
      · by_cases h0 : e.subs = 0
        · have : unsubscribe st k p = st := by
            simp only [unsubscribe, hk]
            rw [if_neg h1, if_pos h0]
          rw [this]
          exact hI
        · rw [unsubscribe_of_many st k p e hk h1 h0]
          exact inv_unsubscribe_many st k p e hk h1 h0 hI

/-- Every reachable cache state satisfies the invariant. -/
theorem cache_inv (st : CacheSt) (h : CacheReachable st) : CacheInv st := by
  induction h with
  | origin =>
      refine ⟨?_, ?_, ?_⟩
      · intro t ht
        exact absurd ht (List.not_mem_nil t)
      · intro k p e he
        cases k <;> simp [CacheSt.origin, CacheSt.atomsMap, getKey] at he
      · intro k p e he _
        cases k <;> simp [CacheSt.origin, CacheSt.atomsMap, getKey] at he
  | getAtomStep st k p _ ih => exact inv_getAtom st k p ih
  | subscribeStep st k p _ ih => exact inv_subscribe st k p ih
  | unsubscribeStep st k p _ ih => exact inv_unsubscribe st k p ih

/-- Claim C8: every running live-view refresh interval — for folder
atoms of either depth and for file atoms alike — has the fixed period of
500 milliseconds in every reachable cache state; no public operation
takes a period; an entry without subscribers runs no timer; and the
timer starts exactly when the entry gains its first subscriber, again
with period 500. -/
theorem refresh_interval_500 (st : CacheSt) (k : AtomMapKind) (path : String)
    (h : CacheReachable st) :
    (∀ tid period, (tid, period) ∈ st.timers → period = 500)
    ∧ (∀ e, getKey (st.atomsMap k) path = some e → e.subs = 0 →
        e.timerId = none)
    ∧ (∀ e, getKey (st.atomsMap k) path = some e → e.subs = 0 →
        getKey ((subscribe st k path).atomsMap k) path
            = some { e with subs := 1, timerId := some st.nextId }
          ∧ (st.nextId, 500) ∈ (subscribe st k path).timers) := by
  obtain ⟨h500, _, hzero⟩ := cache_inv st h
  refine ⟨fun tid period hmem => h500 (tid, period) hmem,
    fun e hk => hzero k path e hk, ?_⟩
  intro e hk h0
  rw [subscribe_of_mem_zero st k path e hk h0]
  constructor
  · rw [atomsMap_updMap]
    exact getKey_setKey_self _ _ _
  · rw [timers_updMap]
    exact List.mem_append_right _ (List.mem_singleton.mpr rfl)

/-- Witness for claim C8 at a concrete reachable state: after fetching a
file atom, the first subscription mounts the entry with a running timer
of period exactly 500. -/
theorem refresh_interval_500_witness :
    getKey ((subscribe ((getAtom CacheSt.origin AtomMapKind.files "/a").1)
        AtomMapKind.files "/a").atomsMap AtomMapKind.files) "/a"
      = some (CacheEntry.mk 0 1 (some 1))
    ∧ (1, 500) ∈ (subscribe ((getAtom CacheSt.origin AtomMapKind.files "/a").1)
        AtomMapKind.files "/a").timers := by
  obtain ⟨hmem, htm⟩ := (refresh_interval_500
    ((getAtom CacheSt.origin AtomMapKind.files "/a").1) AtomMapKind.files "/a"
    (CacheReachable.getAtomStep _ _ _ CacheReachable.origin)).2.2
    (CacheEntry.mk 0 0 none) (by decide) rfl
  exact ⟨hmem.trans (by decide), htm⟩

/-- Claim C5: for a fixed path and atom map (one of the two getFolderAtom
depths or the file atoms), all subscribers share one cache entry and one
refresh timer: a repeated atom-getter call on a present key returns the
same entry and changes no state; a subscriber past the first reuses the
entry, counts it up and starts no second timer; the last unsubscribe
cancels the running interval and removes the entry from its per-depth
map; and a subsequent fetch creates a fresh entry with a new
identity. -/
theorem cache_lifecycle (st : CacheSt) (k : AtomMapKind) (path : String)
    (h : CacheReachable st) :
    (∀ e, getKey (st.atomsMap k) path = some e →
        getAtom st k path = (st, e.eid))
    ∧ (∀ e, getKey (st.atomsMap k) path = some e → e.subs ≠ 0 →
        (subscribe st k path).timers = st.timers
        ∧ getKey ((subscribe st k path).atomsMap k) path
            = some { e with subs := e.subs + 1 })
    ∧ (∀ e, getKey (st.atomsMap k) path = some e → e.subs = 1 →
        getKey ((unsubscribe st k path).atomsMap k) path = none
        ∧ ∀ tid period, e.timerId = some tid →
            (tid, period) ∉ (unsubscribe st k path).timers)
    ∧ (∀ e, getKey (st.atomsMap k) path = some e → e.subs = 1 →
        ∃ e2, getKey (((getAtom (unsubscribe st k path) k path).1).atomsMap k)
              path = some e2
          ∧ e2.eid ≠ e.eid ∧ e2.subs = 0 ∧ e2.timerId = none) := by
  obtain ⟨h500, hids, hzero⟩ := cache_inv st h
  refine ⟨?_, ?_, ?_, ?_⟩
  · intro e hk
    exact getAtom_of_mem st k path e hk
  · intro e hk h0
    rw [subscribe_of_mem_pos st k path e hk h0]
    refine ⟨timers_updMap _ _ _ _ _, ?_⟩
    rw [atomsMap_updMap]
    exact getKey_setKey_self _ _ _
  · intro e hk h1
    rw [unsubscribe_of_one st k path e hk h1]
    constructor
    · rw [atomsMap_updMap]
      exact getKey_delKey_self _ _
    · intro tid period htid
      rw [timers_updMap, htid]
      exact eraseTimer_not_mem st.timers tid period
  · intro e hk h1
    have hnone : getKey ((unsubscribe st k path).atomsMap k) path = none := by
      rw [unsubscribe_of_one st k path e hk h1, atomsMap_updMap]
      exact getKey_delKey_self _ _
    have hnext : (unsubscribe st k path).nextId = st.nextId := by
      rw [unsubscribe_of_one st k path e hk h1, nextId_updMap]
    refine ⟨CacheEntry.mk (unsubscribe st k path).nextId 0 none, ?_, ?_,
      rfl, rfl⟩
    · exact getAtom_created (unsubscribe st k path) k path hnone
    · show (unsubscribe st k path).nextId ≠ e.eid
      rw [hnext]
      exact Nat.ne_of_gt (hids k path e hk)

/-- Witness for claim C5 at a concrete reachable state: one subscriber
on a file atom, then re-fetching returns the same entry; unsubscribing
removes the entry and its period-500 timer. -/
theorem cache_lifecycle_witness :
    getAtom (subscribe CacheSt.origin AtomMapKind.files "/b")
        AtomMapKind.files "/b"
      = (subscribe CacheSt.origin AtomMapKind.files "/b", 0)
    ∧ getKey ((unsubscribe (subscribe CacheSt.origin AtomMapKind.files "/b")
        AtomMapKind.files "/b").atomsMap AtomMapKind.files) "/b" = none
    ∧ (1, 500) ∉ (unsubscribe (subscribe CacheSt.origin AtomMapKind.files "/b")
        AtomMapKind.files "/b").timers := by
  obtain ⟨c1, c2, c3, c4⟩ := cache_lifecycle
    (subscribe CacheSt.origin AtomMapKind.files "/b") AtomMapKind.files "/b"
    (CacheReachable.subscribeStep _ _ _ CacheReachable.origin)
  have hk : getKey ((subscribe CacheSt.origin AtomMapKind.files "/b").atomsMap
      AtomMapKind.files) "/b" = some (CacheEntry.mk 0 1 (some 1)) := by decide
  refine ⟨c1 _ hk, (c3 _ hk rfl).1, (c3 _ hk rfl).2 1 500 rfl⟩

end Windows9x
